import Mathlib

/-!
# Verification of the InvokeAI model install service

A shallow embedding of `invokeai/app/services/model_install/model_install_default.py`
(class `ModelInstallService`), together with theorems settling the frozen claims
about it.

Conventions of the embedding:
* Strings from the Python code are modelled as `List Char` where character-level
  structure matters (regular expressions, path stems and suffixes) and as `String`
  otherwise.
* Filesystem paths are lists of components.
* The service's stop event is assumed unset throughout: all claims concern a
  running service, and `_put_in_queue` therefore always enqueues.
* External collaborators (download queue, records store, probe, event bus) are
  modelled as oracles/parameters; events put on the event bus are recorded in an
  `emitted` trace.
* A few definitions come from `model_install_base.py`, which is not part of the
  sources under inspection; those are modelled from the spec and carry a
  doc comment starting with `Modelled from the spec:`.
-/

/-- Modelled from the spec: `InstallStatus` of an install job
(`model_install_base.py` is not among the sources). The spec, section 3, lists
the statuses WAITING, DOWNLOADING, DOWNLOADS_DONE, RUNNING, COMPLETED, ERROR,
CANCELLED. -/
inductive InstallStatus where
  | waiting
  | downloading
  | downloadsDone
  | running
  | completed
  | error
  | cancelled
deriving DecidableEq, Repr

/-- Modelled from the spec: `in_terminal_state ≡ status ∈ {COMPLETED, ERROR, CANCELLED}`. -/
def InstallStatus.inTerminalState : InstallStatus → Bool
  | .completed => true
  | .error => true
  | .cancelled => true
  | _ => false

/-- One download part (a `DownloadJob` belonging to an install job). `url` is an
abstract identifier standing for the part's source URL; `complete` and
`terminal` are the part's `complete`/`in_terminal_state` flags maintained by the
download queue; `html` records whether the part's `content_type` contains
"text/html". -/
structure DLPart where
  url : Nat
  complete : Bool := false
  terminal : Bool := false
  html : Bool := false
  bytes : Nat := 0
  totalBytes : Nat := 0
deriving DecidableEq, Repr

/-- The kinds of events the service emits on the event bus
(`_signal_job_running`, `_signal_job_downloading`, `_signal_job_downloads_done`,
`_signal_job_completed`, `_signal_job_errored`, `_signal_job_cancelled`). -/
inductive EmitKind where
  | runningEv
  | downloadingEv
  | downloadsDoneEv
  | completedEv
  | erroredEv
  | cancelledEv
deriving DecidableEq, Repr

/-- The state of one install job as seen by the service, together with the
bookkeeping that the claims talk about.  `cache` is the set of this job's part
URLs currently present in the service's `_download_cache`; `queueCount` counts
`_put_in_queue` calls for this job; `cancelRequests` counts
`download_queue.cancel_job` calls issued for its parts; `installing` is a ghost
flag marking that the worker is between `_signal_job_running` and the end of
`_register_or_install`; `tmpdir` models `_install_tmpdir is not None`;
`tmpdirRemoved`, `latchSet` (`_install_completed_event`), `taskDone` and
`changedLatch` (`_downloads_changed_event`) record the side effects of the
worker's `finally:` block and of the callbacks. -/
structure JobState where
  status : InstallStatus := .waiting
  errorMsg : Option String := none
  errorType : Option String := none
  configOut : Bool := false
  parts : List DLPart := []
  cache : List Nat := []
  bytes : Nat := 0
  totalBytes : Nat := 0
  installing : Bool := false
  tmpdir : Bool := false
  tmpdirRemoved : Bool := false
  latchSet : Bool := false
  taskDone : Bool := false
  queueCount : Nat := 0
  cancelRequests : Nat := 0
  changedLatch : Bool := false
  emitted : List EmitKind := []
deriving DecidableEq, Repr

/-- Modelled from the spec: `ModelInstallJob.cancel` ("It first marks the job
cancelled", section 5); the cancelled status is written unconditionally. -/
def jobCancel (s : JobState) : JobState :=
  { s with status := .cancelled }

/-- Modelled from the spec: `ModelInstallJob.set_error` transitions the job to
ERROR and records `error` and `error_type` (spec sections 3 and 7). -/
def jobSetError (s : JobState) (ty msg : String) : JobState :=
  { s with status := .error, errorType := some ty, errorMsg := some msg }

/-- Append an event-bus emission to the trace. -/
def emit (s : JobState) (e : EmitKind) : JobState :=
  { s with emitted := s.emitted ++ [e] }

/-- `_put_in_queue`: with the stop event unset (assumed throughout, see module
header) the job is put into the install queue. -/
def putInQueue (s : JobState) : JobState :=
  { s with queueCount := s.queueCount + 1 }

/-- `_cancel_download_parts`: submit a cancel to the download queue for every
part; if all parts are already in a terminal state, put the job in the install
queue for final cleanup. -/
def cancelDownloadParts (s : JobState) : JobState :=
  let s1 := { s with cancelRequests := s.cancelRequests + s.parts.length }
  if s1.parts.all (·.terminal) then putInQueue s1 else s1

/-- `cancel_job`: mark the job cancelled, then cascade cancellation to its
download parts (under the service lock). -/
def cancelJobFn (s : JobState) : JobState :=
  cancelDownloadParts (jobCancel s)

/-- Exceptions escaping a download callback: a missing key in
`_download_cache` (`KeyError`) or a failed `assert` (`AssertionError`). -/
inductive CbErr where
  | keyError
  | assertionError
deriving DecidableEq, Repr

/-- `_download_started_callback`: look the install job up in the download cache
(raising `KeyError` when the URL is absent) and set its status to DOWNLOADING
unconditionally; if `total_bytes` is still zero it becomes the sum of the
parts' totals. (The narrowing of `local_path` below the scratch dir is not
modelled; no claim mentions it.) -/
def downloadStartedCallback (u : Nat) (s : JobState) : Except CbErr JobState :=
  if u ∈ s.cache then
    let s1 := { s with status := .downloading }
    .ok (if s1.totalBytes = 0 then
          { s1 with totalBytes := (s1.parts.map (·.totalBytes)).sum }
         else s1)
  else .error .keyError

/-- `_download_progress_callback`: look the job up (`KeyError` when absent); if
it is already cancelled, cascade cancellation to the parts, otherwise recompute
`bytes` as the sum over parts and emit a downloading event. -/
def downloadProgressCallback (u : Nat) (s : JobState) : Except CbErr JobState :=
  if u ∈ s.cache then
    .ok (if s.status = .cancelled then
          cancelDownloadParts s
         else
          emit { s with bytes := (s.parts.map (·.bytes)).sum } .downloadingEv)
  else .error .keyError

/-- `_signal_job_downloads_done`: set DOWNLOADS_DONE and emit the event. -/
def signalJobDownloadsDone (s : JobState) : JobState :=
  emit { s with status := .downloadsDone } .downloadsDoneEv

/-- `_download_complete_callback`: look the job up (`KeyError` when absent); if
the job is currently DOWNLOADING and every part is complete, emit
DOWNLOADS_DONE and put the job in the install queue; then pop the URL from the
download cache and set the downloads-changed latch. -/
def downloadCompleteCallback (u : Nat) (s : JobState) : Except CbErr JobState :=
  if u ∈ s.cache then
    let s1 := if s.status = .downloading ∧ s.parts.all (·.complete) then
                putInQueue (signalJobDownloadsDone s)
              else s
    .ok { s1 with cache := s1.cache.erase u, changedLatch := true }
  else .error .keyError

/-- `_download_error_callback`: pop the URL from the download cache with a
default of `None` and then `assert` it was present (an `AssertionError` escapes
when it was not, with no state change); record the error on the job via
`set_error`, cascade cancellation to sibling parts and set the
downloads-changed latch. -/
def downloadErrorCallback (u : Nat) (ty msg : String) (s : JobState) :
    Except CbErr JobState :=
  if u ∈ s.cache then
    let s1 := jobSetError { s with cache := s.cache.erase u } ty msg
    .ok { cancelDownloadParts s1 with changedLatch := true }
  else .error .assertionError

/-- `_download_cancelled_callback`: pop the URL from the download cache with a
default of `None`; when it was absent, return immediately (a no-op). Otherwise
set the downloads-changed latch, mark the job cancelled unless it has already
registered an error, and cascade cancellation. -/
def downloadCancelledCallback (u : Nat) (s : JobState) : Except CbErr JobState :=
  if u ∈ s.cache then
    let s1 := { s with cache := s.cache.erase u, changedLatch := true }
    let s2 := if s1.status = .error then s1 else jobCancel s1
    .ok { cancelDownloadParts s2 with changedLatch := true }
  else .ok s

/-- `_set_error` on the service: if any download part has a content type
containing "text/html", replace the error with an `InvalidModelConfigException`
mentioning the HTML page; then record the error on the job and emit the error
event. -/
def setErrorFn (s : JobState) (ty msg : String) : JobState :=
  let s1 :=
    if s.parts.any (·.html) then
      jobSetError s "InvalidModelConfigException" "HTML page, not a model"
    else jobSetError s ty msg
  emit s1 .erroredEv

/-- The worker's `finally:` block: remove the scratch directory when
`_install_tmpdir` is set, set the install-completed latch and mark the queue
item done. -/
def workerFinallyFn (s : JobState) : JobState :=
  { s with tmpdirRemoved := s.tmpdirRemoved || s.tmpdir,
           latchSet := true, taskDone := true }

/-- The dispatch part of the worker's per-job block (`_install_next_item`): on a
cancelled job emit the cancelled event; on an errored job emit the error event;
on a WAITING or DOWNLOADS_DONE job begin `_register_or_install` (set the byte
counters from `_stat_size`, set RUNNING and emit it); on any other status do
nothing.  For the branches that do not start an install the `finally:` block
runs immediately; for the install branch it runs in `workerFinishFn`.  `sz` is
the value of `_stat_size(job.local_path)`. -/
def workerDispatchFn (s : JobState) (sz : Nat) : JobState :=
  match s.status with
  | .cancelled => workerFinallyFn { emit s .cancelledEv with installing := false }
  | .error => workerFinallyFn { emit s .erroredEv with installing := false }
  | .waiting =>
      { emit { s with totalBytes := sz, bytes := sz } .runningEv with
          status := .running, installing := true }
  | .downloadsDone =>
      { emit { s with totalBytes := sz, bytes := sz } .runningEv with
          status := .running, installing := true }
  | _ => workerFinallyFn { s with installing := false }

/-- The tail of the worker's per-job block after `register_path`/`install_path`
returns or raises: on success attach `config_out`, set COMPLETED and emit it;
on an exception `_set_error` runs.  In both cases the `finally:` block runs.
`outcome = none` is success; `outcome = some (ty, msg)` is a raised exception. -/
def workerFinishFn (s : JobState) (outcome : Option (String × String)) : JobState :=
  match outcome with
  | none =>
      workerFinallyFn
        { emit { s with status := .completed, configOut := true } .completedEv with
            installing := false }
  | some (ty, msg) =>
      workerFinallyFn { setErrorFn s ty msg with installing := false }

/-- The whole per-job block of `_install_next_item` (lines dequeue..`finally`),
run sequentially: dispatch, then, when the register-or-install branch was
entered, its finish with the given outcome.  This function is total: no
exception escapes the block, which is the formal content of "the worker never
dies". -/
def installNextItem (s : JobState) (sz : Nat) (outcome : Option (String × String)) :
    JobState :=
  let s1 := workerDispatchFn s sz
  if s1.installing then workerFinishFn s1 outcome else s1

/-- The events that can touch one install job: the public `cancel_job`, the five
download-queue callbacks (each preceded by the download queue marking the part
complete/terminal, which is modelled inside `misStep`), and the worker's
dispatch and finish phases. -/
inductive Ev where
  | cancelJob
  | startedCb (u : Nat)
  | progressCb (u : Nat)
  | completeCb (u : Nat)
  | errorCb (u : Nat) (ty msg : String)
  | cancelledCb (u : Nat)
  | workerDispatch (sz : Nat)
  | workerFinish (outcome : Option (String × String))
deriving DecidableEq, Repr

/-- Update the part with the given URL. -/
def markPart (s : JobState) (u : Nat) (f : DLPart → DLPart) : JobState :=
  { s with parts := s.parts.map (fun p => if p.url = u then f p else p) }

/-- Recover from a callback exception: an exception escaping a callback leaves
the job state unchanged (it propagates into the download queue's thread). -/
def cbRecover (s : JobState) : Except CbErr JobState → JobState
  | .ok s1 => s1
  | .error _ => s

/-- One interleaving step of the service acting on a single install job.  For
the terminal download callbacks the download queue has already moved the part
to its terminal (and for `completeCb` complete) state before invoking the
callback; this queue-side marking is part of the step but not of the callback
function itself. -/
def misStep (s : JobState) (ev : Ev) : JobState :=
  match ev with
  | .cancelJob => cancelJobFn s
  | .startedCb u => cbRecover s (downloadStartedCallback u s)
  | .progressCb u => cbRecover s (downloadProgressCallback u s)
  | .completeCb u =>
      let s1 := markPart s u (fun p => { p with complete := true, terminal := true })
      cbRecover s1 (downloadCompleteCallback u s1)
  | .errorCb u ty msg =>
      let s1 := markPart s u (fun p => { p with terminal := true })
      cbRecover s1 (downloadErrorCallback u ty msg s1)
  | .cancelledCb u =>
      let s1 := markPart s u (fun p => { p with terminal := true })
      cbRecover s1 (downloadCancelledCallback u s1)
  | .workerDispatch sz => workerDispatchFn s sz
  | .workerFinish outcome => if s.installing then workerFinishFn s outcome else s

/-- Run a trace of events from a state. -/
def misRun (s : JobState) (evs : List Ev) : JobState :=
  evs.foldl misStep s

/-- The status DAG of the claim (spec section 3, invariant 1):
WAITING → DOWNLOADING → DOWNLOADS_DONE → RUNNING → COMPLETED, with the download
phase optional (WAITING → RUNNING), and CANCELLED/ERROR reachable from every
non-terminal status. -/
def dagEdge : InstallStatus → InstallStatus → Bool
  | .waiting, .downloading => true
  | .waiting, .running => true
  | .downloading, .downloadsDone => true
  | .downloadsDone, .running => true
  | .running, .completed => true
  | a, .cancelled => !a.inTerminalState
  | a, .error => !a.inTerminalState
  | _, _ => false

/-- The transitions the code actually performs beyond the claimed DAG; each is a
race between a late download callback (its part URL still in the download
cache), the public `cancel_job`, and the worker finishing an install: the
started callback writes DOWNLOADING unconditionally, `cancel_job` writes
CANCELLED unconditionally, the error callback writes ERROR unconditionally, the
cancelled callback writes CANCELLED unless the job is errored, and the worker's
finish writes COMPLETED/ERROR even when the status changed during the install. -/
def raceStep (s : JobState) (ev : Ev) : Bool :=
  match ev with
  | .startedCb u =>
      decide (u ∈ s.cache) && !(decide (s.status = .waiting) || decide (s.status = .downloading))
  | .cancelJob => s.status.inTerminalState
  | .errorCb u _ _ =>
      decide (u ∈ s.cache) && (decide (s.status = .cancelled) || decide (s.status = .completed))
  | .cancelledCb u => decide (u ∈ s.cache) && decide (s.status = .completed)
  | .workerFinish _ => s.installing && !decide (s.status = .running)
  | _ => false

/-- A row of the service's job table (`_install_jobs`) as far as `import_model`
is concerned: id, source and status.  The source type is kept abstract. -/
structure ImportJob (sigma : Type) where
  id : Nat
  source : sigma
  status : InstallStatus
deriving DecidableEq, Repr

/-- The service state touched by `import_model`: the job table (`_install_jobs`),
the id counter behind `_next_id`, and the number of `_put_in_queue` calls. -/
structure ImportState (sigma : Type) where
  jobs : List (ImportJob sigma)
  nextJobId : Nat := 0
  queueCount : Nat := 0
deriving DecidableEq, Repr

/-- `import_model`: when the job table holds a job with the same source that is
not in a terminal state, return the first such job and change nothing.
Otherwise create a fresh WAITING job with the next id, enqueue it when the
source is local (`isLocal`), and append it to the job table.  (For remote
sources the creation additionally expands remote files and registers download
parts; that machinery lives outside this state.) -/
def importModel {sigma : Type} [DecidableEq sigma] (isLocal : sigma → Bool)
    (st : ImportState sigma) (source : sigma) :
    ImportJob sigma × ImportState sigma :=
  match st.jobs.find? (fun j => decide (j.source = source) && !j.status.inTerminalState) with
  | some j => (j, st)
  | none =>
      let job : ImportJob sigma :=
        { id := st.nextJobId, source := source, status := .waiting }
      let st1 := { st with jobs := st.jobs ++ [job], nextJobId := st.nextJobId + 1 }
      (job, if isLocal source then { st1 with queueCount := st1.queueCount + 1 } else st1)


/-- A path component (one name in a filesystem path), as its list of
characters. -/
abbrev PathC := List Char

/-- A filesystem path, as the list of its components (the result of resolving:
no dot or dot-dot components). -/
abbrev PathL := List PathC

/-- The path normalization of `_register`: the resolved model path is stored
relative to the models root (`model_path.relative_to(models_path)`, here:
dropping the root components) exactly when it is inside the models root
(`model_path.is_relative_to(models_path)`, here: the root components are an
initial segment); otherwise it is stored unchanged. -/
def registerStoredPath (modelsPath : PathL) (modelPath : PathL) : PathL :=
  if modelPath.take modelsPath.length = modelsPath then
    modelPath.drop modelsPath.length
  else modelPath


/-- Split a name at its last dot: `splitLastDot name = some (b, a)` when
`name = b ++ \'.\' :: a` and `a` contains no dot; `none` when there is no dot. -/
def splitLastDot : List Char → Option (List Char × List Char)
  | [] => none
  | c :: rest =>
    match splitLastDot rest with
    | some (b, a) => some (c :: b, a)
    | none => if c = '.' then some ([], rest) else none

/-- `pathlib.PurePath.suffix` of a file name: the part from the last dot on,
empty when the last dot is the first character (hidden files) or the final
character, or when there is no dot. -/
def nameSuffix (name : PathC) : PathC :=
  match splitLastDot name with
  | some (b, a) => if b ≠ [] ∧ a ≠ [] then '.' :: a else []
  | none => []

/-- `pathlib.PurePath.stem` of a file name: the name with `nameSuffix`
removed. -/
def nameStem (name : PathC) : PathC :=
  match splitLastDot name with
  | some (b, a) => if b ≠ [] ∧ a ≠ [] then b else name
  | none => name

/-- `pathlib.PurePath.with_stem`: replace the stem, keeping the suffix. -/
def withStem (newStem : PathC) (name : PathC) : PathC :=
  newStem ++ nameSuffix name

/-- `pathlib.PurePath.with_suffix`: replace the suffix, keeping the stem. -/
def withSuffix (newSuffix : PathC) (name : PathC) : PathC :=
  nameStem name ++ newSuffix

/-- The decimal digit character for `n % 10`-style values. -/
def digitChar : Nat → Char
  | 0 => '0' | 1 => '1' | 2 => '2' | 3 => '3' | 4 => '4'
  | 5 => '5' | 6 => '6' | 7 => '7' | 8 => '8' | _ => '9'

/-- The numeric value of a decimal digit character. -/
def charVal : Char → Nat
  | '1' => 1 | '2' => 2 | '3' => 3 | '4' => 4 | '5' => 5
  | '6' => 6 | '7' => 7 | '8' => 8 | '9' => 9 | _ => 0

/-- Decimal representation of a natural number, with fuel for the recursion on
`n / 10`. -/
def natStrAux : Nat → Nat → List Char
  | 0, _ => []
  | f + 1, n => if n < 10 then [digitChar n] else natStrAux f (n / 10) ++ [digitChar (n % 10)]

/-- Decimal representation of a natural number. -/
def natStr (n : Nat) : List Char := natStrAux (n + 1) n

/-- Parse a digit string back to its value (for injectivity of `pad2`). -/
def strVal (l : List Char) : Nat :=
  l.foldl (fun acc c => 10 * acc + charVal c) 0

/-- Python's `f"{n:02d}"`: at least two digits, zero-padded. -/
def pad2 (n : Nat) : List Char :=
  if n < 10 then '0' :: natStr n else natStr n

/-- The disambiguated candidate of `_move_model`: the destination with `_NN`
appended to its stem (suffix preserved), where `NN` is the zero-padded counter.
The destination path is its directory part plus a final file name. -/
def withIndexedStem (p : PathL) (k : Nat) : PathL :=
  match p.getLast? with
  | none => []
  | some name => p.dropLast ++ [withStem (nameStem name ++ '_' :: pad2 k) name]

/-- The collision loop of `_move_model` (`while new_path.exists(): ...`),
with explicit fuel: starting from counter 1, build the candidate with the
current counter appended to the stem and move to it as soon as it does not
exist. -/
def jigger (ex : PathL → Bool) : Nat → PathL → Nat → PathL
  | 0, p, _ => p
  | fuel + 1, p, counter =>
    if ex p then
      let c := withIndexedStem p counter
      jigger ex fuel (if ex c then p else c) (counter + 1)
    else p

/-- `_move_model`: return the destination unchanged when source equals
destination (no move); otherwise disambiguate the destination against the
existing paths `fs` with the `_NN` loop (run with fuel `fs.length + 2`, enough
by pigeonhole) and move, removing the source from the filesystem and adding the
target. -/
def moveModel (fs : List PathL) (oldPath newPath : PathL) : PathL × List PathL :=
  if oldPath = newPath then (oldPath, fs)
  else
    let target := jigger (fun q => decide (q ∈ fs)) (fs.length + 2) newPath 1
    (target, target :: fs.erase oldPath)


/-- Outcome of `_migrate_yaml`: whether it raised (UnsupportedMigration,
modelled as `failed`), which entries were registered, what the legacy file was
renamed to, and whether `legacy_models_yaml_path` was unset in memory. -/
structure MigrateResult where
  failed : Bool
  registered : List String
  renamedTo : Option PathC
  configPathUnset : Bool
deriving DecidableEq, Repr

/-- `_migrate_yaml`: the database contents are read first; when the legacy yaml
file exists, a version other than "3.0.0" raises (nothing registered, no
rename, path not unset); otherwise the entries are registered only when the
records store is empty and the yaml is non-empty (each entry through
`register_path`, whose per-entry failures `regOk` are caught and logged), the
file is renamed via `with_suffix(".yaml.bak")`, and in every non-raising case
the configured path is unset. -/
def migrateYaml (fileExists : Bool) (fileName : PathC) (version : String)
    (entries : List String) (dbEmpty : Bool) (regOk : String → Bool) :
    MigrateResult :=
  if fileExists then
    if version ≠ "3.0.0" then
      { failed := true, registered := [], renamedTo := none, configPathUnset := false }
    else
      { failed := false,
        registered := if dbEmpty ∧ entries ≠ [] then entries.filter regOk else [],
        renamedTo := some (withSuffix ".yaml.bak".toList fileName),
        configPathUnset := true }
  else
    { failed := false, registered := [], renamedTo := none, configPathUnset := true }


/-- A character allowed inside the two halves of a repo id: `[^/:]`. -/
def isRidChar (c : Char) : Bool := !(c = '/' || c = ':')

/-- Modelled from the spec: the enumerated repository variant tags
(`ModelRepoVariant.__members__.values()` lives in a module that is not among
the sources).  The spec names FP16, FP32, ONNX, OPENVINO and DEFAULT as the
authoritative minimum set; DEFAULT is the empty tag (an absent variant, as in
`owner/name:` or `owner/name::sub`), so the non-empty tags are the four
below. -/
def variantTags : List (List Char) :=
  ["fp16".toList, "fp32".toList, "onnx".toList, "openvino".toList]

/-- First half of the repo-id regex `^([^/:]+/[^/:]+)...`: consume
`[^/:]+ \'/\' [^/:]+` greedily and return it together with the remaining
input; `none` when that shape is absent. -/
def takeRid? (l : List Char) : Option (List Char × List Char) :=
  match l.dropWhile isRidChar with
  | '/' :: r2 =>
      if l.takeWhile isRidChar = [] ∨ r2.takeWhile isRidChar = [] then none
      else some (l.takeWhile isRidChar ++ '/' :: r2.takeWhile isRidChar,
                 r2.dropWhile isRidChar)
  | _ => none

/-- `match.group(2) if match.group(2) else None`: an empty variant group is
reported as `None`. -/
def vOf (vs : List Char) : Option (List Char) := if vs = [] then none else some vs

/-- The `/?` before the subfolder group: one leading slash is dropped, except
that the regex backtracks and keeps a subfolder that is exactly `"/"`. -/
def stripSlash : List Char → List Char
  | '/' :: rest => if rest = [] then ['/'] else rest
  | l => l

/-- The innermost group of the repo-id regex, `(?::/?([^:]+))?$` applied after
the variant group: an absent subfolder, or a colon and a nonempty colon-free
subfolder with one leading slash stripped. -/
def parseSub (rid : List Char) (vs : List Char) (r2 : List Char) :
    Option (List Char × Option (List Char) × Option (List Char)) :=
  match r2 with
  | [] => some (rid, vOf vs, none)
  | ':' :: ss =>
      if ss ≠ [] ∧ ':' ∉ ss then some (rid, vOf vs, some (stripSlash ss))
      else none
  | _ => none

/-- The optional variant-and-subfolder tail of the repo-id regex,
`(?::(<variants>)?(?::/?([^:]+))?)?$`, applied to what follows the repo-id
group. -/
def parseRepoTail (variants : List (List Char)) (rid : List Char)
    (rest : List Char) :
    Option (List Char × Option (List Char) × Option (List Char)) :=
  match rest with
  | [] => some (rid, none, none)
  | ':' :: r =>
      if r.takeWhile (fun c => !(c = ':')) = []
          ∨ r.takeWhile (fun c => !(c = ':')) ∈ variants then
        parseSub rid (r.takeWhile (fun c => !(c = ':')))
          (r.dropWhile (fun c => !(c = ':')))
      else none
  | _ => none

/-- The repo-id regular expression of `heuristic_import`,
`^([^/:]+/[^/:]+)(?::(<variants>)?(?::/?([^:]+))?)?$`, embedded as a parser
returning (repo id, optional variant, optional subfolder); `none` when the
regex does not match.  `^` and `$` anchor at the string boundaries.  It is
split into the leading repo-id group (`takeRid?`) and the tail
(`parseRepoTail`). -/
def parseRepo (variants : List (List Char)) (l : List Char) :
    Option (List Char × Option (List Char) × Option (List Char)) :=
  match takeRid? l with
  | none => none
  | some (rid, rest) => parseRepoTail variants rid rest

/-- The URL regex `^https?://[^/]+` of `heuristic_import`: the scheme,
`://`, then at least one character other than a slash (a prefix match; the
rest of the string is unconstrained). -/
def urlRe (l : List Char) : Bool :=
  match l with
  | 'h' :: 't' :: 't' :: 'p' :: 's' :: ':' :: '/' :: '/' :: c :: _ => !(c = '/')
  | 'h' :: 't' :: 't' :: 'p' :: ':' :: '/' :: '/' :: c :: _ => !(c = '/')
  | _ => false

/-- Token selection for URL sources: an explicit token wins; otherwise the
token of the first configured `(url_regex, token)` pair whose regex matches
the source (each pair's regex is its match predicate here). -/
def resolveUrlToken (tok : Option String)
    (pairs : List ((List Char → Bool) × String)) (s : List Char) : Option String :=
  match tok with
  | some t => some t
  | none => (pairs.find? (fun pr => pr.1 s)).map (fun pr => pr.2)

/-- The three typed source variants produced by `heuristic_import`
(`LocalModelSource`, `HFModelSource`, `URLModelSource`).  A local source keeps
the given string as its path; a URL source keeps the given string as its
URL. -/
inductive ModelSourceObj where
  | localSource (path : List Char) (inplace : Bool)
  | hfSource (repoId : List Char) (variant : Option (List Char))
      (subfolder : Option (List Char)) (accessToken : Option String)
  | urlSource (url : List Char) (accessToken : Option String)
deriving DecidableEq, Repr

/-- The failure of `heuristic_import` on an unrecognized source string
(`ValueError` / BadSource). -/
inductive BadSourceErr where
  | badSource
deriving DecidableEq, Repr

/-- `heuristic_import`: an existing filesystem entry (per the oracle `fsOk`)
is a local source with the given inplace flag; otherwise a repo-id match is an
HF source with the given access token; otherwise a URL match is a URL source
with the resolved token; otherwise BadSource. -/
def heuristicImport (fsOk : List Char → Bool) (variants : List (List Char))
    (pairs : List ((List Char → Bool) × String)) (accessToken : Option String)
    (inplace : Bool) (source : List Char) : Except BadSourceErr ModelSourceObj :=
  if fsOk source then .ok (.localSource source inplace)
  else
    match parseRepo variants source with
    | some (rid, v, sub) => .ok (.hfSource rid v sub accessToken)
    | none =>
        if urlRe source then
          .ok (.urlSource source (resolveUrlToken accessToken pairs source))
        else .error .badSource

/-- All characters of a repo-id half are `[^/:]`. -/
abbrev ridChars (l : List Char) : Prop := ∀ c ∈ l, isRidChar c = true

/-- Declarative reading of the repo-id group `([^/:]+/[^/:]+)`. -/
def ridOkP (rid : List Char) : Prop :=
  ∃ a b, rid = a ++ '/' :: b ∧ a ≠ [] ∧ b ≠ [] ∧ ridChars a ∧ ridChars b

/-- Declarative reading of a full match of the repo-id regex
`^([^/:]+/[^/:]+)(?::(<variants>)?(?::/?([^:]+))?)?$` with the groups it
reports: either the bare repo id, or repo id and (possibly empty) variant, or
repo id, variant and subfolder. -/
def repoDecl (variants : List (List Char)) (l rid : List Char)
    (v sub : Option (List Char)) : Prop :=
  ridOkP rid ∧
  ((l = rid ∧ v = none ∧ sub = none)
  ∨ (∃ vs, l = rid ++ ':' :: vs ∧ (vs = [] ∨ vs ∈ variants)
      ∧ v = vOf vs ∧ sub = none)
  ∨ (∃ vs ss, l = rid ++ ':' :: vs ++ ':' :: ss ∧ (vs = [] ∨ vs ∈ variants)
      ∧ ss ≠ [] ∧ ':' ∉ ss ∧ v = vOf vs ∧ sub = some (stripSlash ss)))

/-- Declarative reading of the URL regex `^https?://[^/]+`. -/
def urlDecl (l : List Char) : Prop :=
  (∃ c rest, l = 'h' :: 't' :: 't' :: 'p' :: ':' :: '/' :: '/' :: c :: rest
    ∧ c ≠ '/')
  ∨ (∃ c rest,
      l = 'h' :: 't' :: 't' :: 'p' :: 's' :: ':' :: '/' :: '/' :: c :: rest
    ∧ c ≠ '/')


/-- A filesystem node: a regular file with abstract content, or a directory
(directory contents are modelled at node granularity). -/
inductive FSNode where
  | file (content : Nat)
  | dir
deriving DecidableEq, Repr

/-- A filesystem: a finite map from paths to nodes. -/
abbrev FS := List (PathL × FSNode)

/-- Look a path up in the filesystem. -/
def fsGet (fs : FS) (p : PathL) : Option FSNode :=
  (fs.find? (fun e => decide (e.1 = p))).map (fun e => e.2)

/-- `Path.exists()`. -/
def fsExistsP (fs : FS) (p : PathL) : Bool := (fsGet fs p).isSome

/-- Create or overwrite a node. -/
def fsSet (fs : FS) (p : PathL) (n : FSNode) : FS :=
  (p, n) :: fs.filter (fun e => !decide (e.1 = p))

/-- The exceptions `_copy_model` can raise: `shutil.copytree` raises
FileExistsError when the destination exists; `shutil.copyfile` raises
IsADirectoryError when the destination is a directory and FileNotFoundError
when the source is missing. -/
inductive CopyErr where
  | fileExists
  | isADirectory
  | notFound
deriving DecidableEq, Repr

/-- `_copy_model`: equal paths are returned unchanged (no copy).  A directory
source goes through `shutil.copytree`, which raises FileExistsError when the
destination already exists.  A single-file source goes through
`shutil.copyfile`, which silently OVERWRITES an existing destination file
(and raises IsADirectoryError only when the destination is a directory). -/
def copyModel (fs : FS) (oldPath newPath : PathL) :
    Except CopyErr (PathL × FS) :=
  if oldPath = newPath then .ok (oldPath, fs)
  else
    match fsGet fs oldPath with
    | some .dir =>
        if fsExistsP fs newPath then .error .fileExists
        else .ok (newPath, fsSet fs newPath .dir)
    | some (.file c) =>
        match fsGet fs newPath with
        | some .dir => .error .isADirectory
        | _ => .ok (newPath, fsSet fs newPath (.file c))
    | none => .error .notFound

/-- The failures of `install_path`: DuplicateModelException (raised only when
`_copy_model` raises FileExistsError) or any other copy error propagating
unchanged. -/
inductive InstallErr where
  | duplicate
  | copyFailure (e : CopyErr)
deriving DecidableEq, Repr

/-- `install_path`: the probe's base and type (`base`, `ty`) determine the
destination `<models_root>/<base>/<ty>/<name>`, where `name` is `config.name`
with the source's suffix when a name override is given, else the source file
name; `_copy_model` copies into place, with FileExistsError converted to
DuplicateModelException; finally `_register` stores the path relative to the
models root.  The source model is `srcDir ++ [modelName]`. -/
def installPath (fs : FS) (modelsRoot : PathL) (base ty : PathC)
    (configName : Option PathC) (srcDir : PathL) (modelName : PathC) :
    Except InstallErr (PathL × FS) :=
  match copyModel fs (srcDir ++ [modelName])
      (modelsRoot ++ [base, ty,
        match configName with
        | some n => withSuffix (nameSuffix modelName) n
        | none => modelName]) with
  | .error .fileExists => .error .duplicate
  | .error e => .error (.copyFailure e)
  | .ok (newPath, fs1) => .ok (registerStoredPath modelsRoot newPath, fs1)


/-- Declarative reading of the variant/subfolder tail
`(?::(<variants>)?(?::/?([^:]+))?)?$` after the repo-id group. -/
def tailDecl (variants : List (List Char)) (rest : List Char)
    (v sub : Option (List Char)) : Prop :=
  (rest = [] ∧ v = none ∧ sub = none)
  ∨ (∃ vs, rest = ':' :: vs ∧ (vs = [] ∨ vs ∈ variants)
      ∧ v = vOf vs ∧ sub = none)
  ∨ (∃ vs ss, rest = ':' :: (vs ++ ':' :: ss) ∧ (vs = [] ∨ vs ∈ variants)
      ∧ ss ≠ [] ∧ ':' ∉ ss ∧ v = vOf vs ∧ sub = some (stripSlash ss))

@[simp] theorem putInQueue_status (s : JobState) : (putInQueue s).status = s.status := rfl

@[simp] theorem emit_status (s : JobState) (e : EmitKind) : (emit s e).status = s.status := rfl

@[simp] theorem markPart_status (s : JobState) (u : Nat) (f : DLPart → DLPart) :
    (markPart s u f).status = s.status := rfl

@[simp] theorem markPart_cache (s : JobState) (u : Nat) (f : DLPart → DLPart) :
    (markPart s u f).cache = s.cache := rfl

@[simp] theorem markPart_installing (s : JobState) (u : Nat) (f : DLPart → DLPart) :
    (markPart s u f).installing = s.installing := rfl

@[simp] theorem cancelDownloadParts_status (s : JobState) :
    (cancelDownloadParts s).status = s.status := by
  simp only [cancelDownloadParts]
  split <;> rfl

@[simp] theorem workerFinallyFn_status (s : JobState) :
    (workerFinallyFn s).status = s.status := rfl

@[simp] theorem jobCancel_status (s : JobState) : (jobCancel s).status = .cancelled := rfl

@[simp] theorem jobSetError_status (s : JobState) (ty msg : String) :
    (jobSetError s ty msg).status = .error := rfl

@[simp] theorem setErrorFn_status (s : JobState) (ty msg : String) :
    (setErrorFn s ty msg).status = .error := by
  unfold setErrorFn
  split <;> rfl

/-- C2: for every job dequeued by the install worker, an exception raised while
processing it (here: while the register-or-install branch runs, the only
fallible part of the block) is trapped and converted to the ERROR status,
recording `error` and `error_type` and emitting the error event; and on every
exit path of the per-job block the scratch directory is removed when set, the
install-completed latch is set, and the queue item is marked done.  The block
`installNextItem` is a total function: no exception escapes it, so the worker
loop never terminates because of a job-processing exception. -/
theorem installNextItem_traps_errors_and_cleans_up
    (s : JobState) (sz : Nat) (outcome : Option (String × String)) :
    (installNextItem s sz outcome).tmpdirRemoved = (s.tmpdirRemoved || s.tmpdir)
    ∧ (installNextItem s sz outcome).latchSet = true
    ∧ (installNextItem s sz outcome).taskDone = true
    ∧ (∀ ty msg, outcome = some (ty, msg) →
        (s.status = .waiting ∨ s.status = .downloadsDone) →
        (installNextItem s sz outcome).status = .error
        ∧ (installNextItem s sz outcome).errorType.isSome = true
        ∧ (installNextItem s sz outcome).errorMsg.isSome = true
        ∧ .erroredEv ∈ (installNextItem s sz outcome).emitted) := by
  refine ⟨?_, ?_, ?_, ?_⟩
  · cases h : s.status <;>
      cases outcome <;>
        simp [installNextItem, workerDispatchFn, workerFinishFn, workerFinallyFn,
          setErrorFn, jobSetError, emit, h] <;> split <;> simp
  · cases h : s.status <;>
      cases outcome <;>
        simp [installNextItem, workerDispatchFn, workerFinishFn, workerFinallyFn,
          setErrorFn, jobSetError, emit, h]
  · cases h : s.status <;>
      cases outcome <;>
        simp [installNextItem, workerDispatchFn, workerFinishFn, workerFinallyFn,
          setErrorFn, jobSetError, emit, h]
  · rintro ty msg rfl (h | h) <;>
      simp [installNextItem, workerDispatchFn, workerFinishFn, workerFinallyFn,
        setErrorFn, jobSetError, emit, h] <;> split <;> simp

/-- Witness for `installNextItem_traps_errors_and_cleans_up` at a concrete
waiting job with a scratch directory whose install raises an `OSError`. -/
theorem installNextItem_traps_errors_witness :
    (installNextItem { status := .waiting, tmpdir := true } 7
        (some ("OSError", "boom"))).status = .error
    ∧ (installNextItem { status := .waiting, tmpdir := true } 7
        (some ("OSError", "boom"))).tmpdirRemoved = true
    ∧ (installNextItem { status := .waiting, tmpdir := true } 7
        (some ("OSError", "boom"))).latchSet = true := by
  have h := installNextItem_traps_errors_and_cleans_up
    { status := .waiting, tmpdir := true } 7 (some ("OSError", "boom"))
  refine ⟨(h.2.2.2 "OSError" "boom" rfl (Or.inl rfl)).1, ?_, h.2.1⟩
  rw [h.1]
  rfl

/-- C3 (counterexample): the claim that a terminal status never changes again
is false: cancel a one-part remote job whose download has not started yet
(status WAITING, its part URL still in the download cache); the job becomes
CANCELLED — a terminal status — but the subsequently delivered
download-started callback sets it back to DOWNLOADING. -/
theorem statusDag_counterexample :
    (misStep { status := .waiting, parts := [{ url := 0 }], cache := [0] }
        Ev.cancelJob).status = .cancelled
    ∧ InstallStatus.inTerminalState .cancelled = true
    ∧ (misStep (misStep { status := .waiting, parts := [{ url := 0 }], cache := [0] }
        Ev.cancelJob) (Ev.startedCb 0)).status = .downloading
    ∧ InstallStatus.inTerminalState .downloading = false := by
  decide

/-- C3 (amended): every single step of the service on a job either leaves the
status unchanged, follows the claimed DAG (with CANCELLED/ERROR reachable from
non-terminal statuses), or is one of the unconditional-write races enumerated
in `raceStep`; in particular, outside those races terminal statuses never
change. -/
theorem installStatus_transitions (s : JobState) (ev : Ev) :
    (misStep s ev).status = s.status
    ∨ dagEdge s.status (misStep s ev).status = true
    ∨ raceStep s ev = true := by
  cases ev with
  | cancelJob =>
      cases h : s.status <;>
        simp [misStep, cancelJobFn, jobCancel, dagEdge, raceStep,
          InstallStatus.inTerminalState, h]
  | startedCb u =>
      by_cases hu : u ∈ s.cache <;>
        cases h : s.status <;>
          simp [misStep, downloadStartedCallback, cbRecover, hu, dagEdge, raceStep,
            InstallStatus.inTerminalState, h] <;>
          split <;> simp
  | progressCb u =>
      by_cases hu : u ∈ s.cache <;>
        simp [misStep, downloadProgressCallback, cbRecover, hu, emit] <;>
        split <;> simp
  | completeCb u =>
      by_cases hu : u ∈ s.cache <;>
        cases h : s.status <;>
          simp [misStep, downloadCompleteCallback, cbRecover, hu,
            signalJobDownloadsDone, emit, dagEdge, raceStep, h] <;>
          split <;> simp_all [dagEdge]
  | errorCb u ty msg =>
      by_cases hu : u ∈ s.cache <;>
        cases h : s.status <;>
          simp [misStep, downloadErrorCallback, cbRecover, hu, jobSetError,
            dagEdge, raceStep, InstallStatus.inTerminalState, h]
  | cancelledCb u =>
      by_cases hu : u ∈ s.cache <;>
        cases h : s.status <;>
          simp [misStep, downloadCancelledCallback, cbRecover, hu, jobCancel,
            dagEdge, raceStep, InstallStatus.inTerminalState, h]
  | workerDispatch sz =>
      cases h : s.status <;>
        simp [misStep, workerDispatchFn, workerFinallyFn, emit, dagEdge, h]
  | workerFinish outcome =>
      by_cases hi : s.installing <;>
        cases h : s.status <;>
          cases outcome <;>
            simp [misStep, workerFinishFn, workerFinallyFn, setErrorFn, jobSetError,
              emit, dagEdge, raceStep, InstallStatus.inTerminalState, h, hi] <;>
            split <;> simp

/-- C8: the download-complete callback never raises for a URL present in the
download cache, removes that URL from the cache, and emits DOWNLOADS_DONE and
pushes the install job into the install queue exactly when, at the time of the
callback, the job's status is DOWNLOADING and every download part is complete;
consequently, for a three-part download completed in any order, DOWNLOADS_DONE
is emitted exactly once, upon completion of the final part. -/
theorem downloadCompleteCallback_spec :
    (∀ (s : JobState) (u : Nat), u ∈ s.cache → s.cache.Nodup →
      downloadCompleteCallback u s = .ok (cbRecover s (downloadCompleteCallback u s))
      ∧ (cbRecover s (downloadCompleteCallback u s)).cache = s.cache.erase u
      ∧ u ∉ (cbRecover s (downloadCompleteCallback u s)).cache
      ∧ ((s.status = .downloading ∧ s.parts.all (·.complete) = true) →
          (cbRecover s (downloadCompleteCallback u s)).emitted
              = s.emitted ++ [.downloadsDoneEv]
          ∧ (cbRecover s (downloadCompleteCallback u s)).queueCount = s.queueCount + 1
          ∧ (cbRecover s (downloadCompleteCallback u s)).status = .downloadsDone)
      ∧ (¬(s.status = .downloading ∧ s.parts.all (·.complete) = true) →
          (cbRecover s (downloadCompleteCallback u s)).emitted = s.emitted
          ∧ (cbRecover s (downloadCompleteCallback u s)).queueCount = s.queueCount
          ∧ (cbRecover s (downloadCompleteCallback u s)).status = s.status))
    ∧ (∀ tr ∈ ([[0, 1, 2], [0, 2, 1], [1, 0, 2], [1, 2, 0], [2, 0, 1], [2, 1, 0]] :
          List (List Nat)).map (List.map Ev.completeCb),
        ((misRun { status := .downloading,
                   parts := [{ url := 0 }, { url := 1 }, { url := 2 }],
                   cache := [0, 1, 2] } tr).emitted.filter
            (· = .downloadsDoneEv)).length = 1
        ∧ ((misRun { status := .downloading,
                     parts := [{ url := 0 }, { url := 1 }, { url := 2 }],
                     cache := [0, 1, 2] } (tr.take 2)).emitted.filter
              (· = .downloadsDoneEv)).length = 0) := by
  constructor
  · intro s u hu hnd
    by_cases hg : s.status = .downloading ∧ s.parts.all (·.complete) = true
    · simp only [downloadCompleteCallback, if_pos hu, if_pos hg, cbRecover]
      refine ⟨?_, ?_, hnd.not_mem_erase, fun _ => ⟨?_, ?_, ?_⟩,
        fun hn => absurd hg hn⟩ <;> trivial
    · simp only [downloadCompleteCallback, if_pos hu, if_neg hg, cbRecover]
      refine ⟨?_, ?_, hnd.not_mem_erase, fun hy => absurd hy hg,
        fun _ => ⟨?_, ?_, ?_⟩⟩ <;> trivial
  · decide

/-- Witness for `downloadCompleteCallback_spec` at a single-part DOWNLOADING
job whose part has just completed. -/
theorem downloadCompleteCallback_spec_witness :
    (0 : Nat) ∈ (JobState.cache
      { status := .downloading,
        parts := [{ url := 0, complete := true, terminal := true }], cache := [0] })
    ∧ (JobState.cache
      { status := .downloading,
        parts := [{ url := 0, complete := true, terminal := true }],
        cache := [0] }).Nodup
    ∧ (cbRecover
        { status := .downloading,
          parts := [{ url := 0, complete := true, terminal := true }], cache := [0] }
        (downloadCompleteCallback 0
          { status := .downloading,
            parts := [{ url := 0, complete := true, terminal := true }],
            cache := [0] })).status = .downloadsDone := by
  have h := downloadCompleteCallback_spec.1
    { status := .downloading,
      parts := [{ url := 0, complete := true, terminal := true }], cache := [0] }
    0 (by decide) (by decide)
  exact ⟨by decide, by decide, (h.2.2.2.1 (by decide)).2.2⟩

/-- C10: the cancelled-download callback for a URL absent from the download
cache is a pure no-op — it returns the state unchanged, raising nothing,
emitting nothing and cascading nothing — whereas the error callback for an
absent URL fails its assertion. -/
theorem downloadCancelledCallback_noop (s : JobState) (u : Nat)
    (hu : u ∉ s.cache) :
    downloadCancelledCallback u s = .ok s
    ∧ (∀ ty msg, downloadErrorCallback u ty msg s = .error .assertionError) := by
  constructor
  · simp [downloadCancelledCallback, hu]
  · intro ty msg
    simp [downloadErrorCallback, hu]

/-- Witness for `downloadCancelledCallback_noop` at the empty job state. -/
theorem downloadCancelledCallback_noop_witness :
    (5 : Nat) ∉ JobState.cache {}
    ∧ downloadCancelledCallback 5 {} = .ok {}
    ∧ downloadErrorCallback 5 "DownloadError" "m" {} = .error .assertionError := by
  have h := downloadCancelledCallback_noop {} 5 (by decide)
  exact ⟨by decide, h.1, h.2 "DownloadError" "m"⟩

/-- C5: if the job table already contains a job with the submitted source that
is not in a terminal state, `import_model` returns that job (the first such
entry) and neither creates a job, allocates an id, enqueues anything, nor
touches the job table. -/
theorem importModel_dedup {sigma : Type} [DecidableEq sigma] (isLocal : sigma → Bool)
    (st : ImportState sigma) (source : sigma)
    (h : ∃ j ∈ st.jobs, j.source = source ∧ j.status.inTerminalState = false) :
    (importModel isLocal st source).2 = st
    ∧ (importModel isLocal st source).1 ∈ st.jobs
    ∧ (importModel isLocal st source).1.source = source
    ∧ (importModel isLocal st source).1.status.inTerminalState = false
    ∧ (importModel isLocal st source).2.jobs = st.jobs
    ∧ (importModel isLocal st source).2.nextJobId = st.nextJobId
    ∧ (importModel isLocal st source).2.queueCount = st.queueCount := by
  cases hfind : st.jobs.find?
      (fun j => decide (j.source = source) && !j.status.inTerminalState) with
  | none =>
      exfalso
      rw [List.find?_eq_none] at hfind
      obtain ⟨j, hj, hs, hn⟩ := h
      exact hfind j hj (by simp [hs, hn])
  | some j =>
      have hj1 := List.mem_of_find?_eq_some hfind
      have hj2 := List.find?_some hfind
      simp only [Bool.and_eq_true, decide_eq_true_eq, Bool.not_eq_eq_eq_not,
        Bool.not_true] at hj2
      simp [importModel, hfind, hj1, hj2.1, hj2.2]

/-- Witness for `importModel_dedup`: resubmitting source `3` while a WAITING
job for it exists returns that job and leaves the state unchanged. -/
theorem importModel_dedup_witness :
    (∃ j ∈ (@ImportState.mk Nat
        [{ id := 0, source := 3, status := .waiting }] 1 1).jobs,
      j.source = 3 ∧ j.status.inTerminalState = false)
    ∧ (importModel (fun _ => true)
        (@ImportState.mk Nat
          [{ id := 0, source := 3, status := .waiting }] 1 1) 3).2
      = ImportState.mk [{ id := 0, source := 3, status := .waiting }] 1 1
    ∧ (importModel (fun _ => true)
        (@ImportState.mk Nat
          [{ id := 0, source := 3, status := .waiting }] 1 1) 3).1.id = 0 := by
  have h := importModel_dedup (fun _ => true)
    (@ImportState.mk Nat [{ id := 0, source := 3, status := .waiting }] 1 1)
    3 ⟨{ id := 0, source := 3, status := .waiting }, by decide, by decide, by decide⟩
  exact ⟨⟨{ id := 0, source := 3, status := .waiting }, by decide, by decide, by decide⟩,
    h.1, by decide⟩

/-- C7: the path recorded by `_register` is the root-relative remainder exactly
when the resolved model path lies inside the models root (and prepending the
root reconstructs the original path); otherwise it is the unchanged absolute
path. -/
theorem register_relativizes_paths (root p : PathL) :
    (root <+: p →
      registerStoredPath root p = p.drop root.length
      ∧ root ++ registerStoredPath root p = p)
    ∧ (¬root <+: p → registerStoredPath root p = p) := by
  constructor
  · intro hp
    obtain ⟨t, rfl⟩ := hp
    refine ⟨?_, ?_⟩ <;>
      simp [registerStoredPath, List.take_left root t, List.drop_left root t]
  · intro hp
    have hq : ¬(p.take root.length = root) := by
      intro hq
      have ht := List.take_append_drop root.length p
      rw [hq] at ht
      exact hp ⟨p.drop root.length, ht⟩
    simp [registerStoredPath, hq]

/-- Witness for `register_relativizes_paths`: installing to
models-root/sdxl/main/foo stores sdxl/main/foo, while a path outside the root
is stored unchanged. -/
theorem register_relativizes_paths_witness :
    (["invokeai".toList, "models".toList] <+:
      ["invokeai".toList, "models".toList, "sdxl".toList, "main".toList, "foo".toList])
    ∧ registerStoredPath ["invokeai".toList, "models".toList]
        ["invokeai".toList, "models".toList, "sdxl".toList, "main".toList, "foo".toList]
      = ["sdxl".toList, "main".toList, "foo".toList]
    ∧ ¬(["invokeai".toList, "models".toList] <+: ["data".toList, "m.ckpt".toList])
    ∧ registerStoredPath ["invokeai".toList, "models".toList]
        ["data".toList, "m.ckpt".toList]
      = ["data".toList, "m.ckpt".toList] := by
  have h1 := register_relativizes_paths ["invokeai".toList, "models".toList]
    ["invokeai".toList, "models".toList, "sdxl".toList, "main".toList, "foo".toList]
  have h2 := register_relativizes_paths ["invokeai".toList, "models".toList]
    ["data".toList, "m.ckpt".toList]
  exact ⟨by decide, by rw [(h1.1 (by decide)).1]; rfl, by decide, h2.2 (by decide)⟩

theorem charVal_digitChar {n : Nat} (h : n < 10) : charVal (digitChar n) = n := by
  interval_cases n <;> rfl

theorem strVal_append (l : List Char) (c : Char) :
    strVal (l ++ [c]) = 10 * strVal l + charVal c := by
  simp [strVal, List.foldl_append]

theorem strVal_natStrAux : ∀ (f n : Nat), n < f → strVal (natStrAux f n) = n := by
  intro f
  induction f with
  | zero => intro n h; omega
  | succ f ih =>
      intro n h
      by_cases h10 : n < 10
      · simp only [natStrAux, if_pos h10]
        simp [strVal]
        exact charVal_digitChar h10
      · have hd : n / 10 < f := by
          have h2 : n / 10 < n := Nat.div_lt_self (by omega) (by omega)
          omega
        have he : natStrAux (f + 1) n
            = natStrAux f (n / 10) ++ [digitChar (n % 10)] := by
          simp [natStrAux, h10]
        rw [he, strVal_append, ih (n / 10) hd,
          charVal_digitChar (Nat.mod_lt n (by omega))]
        omega

theorem strVal_pad2 (n : Nat) : strVal (pad2 n) = n := by
  by_cases h : n < 10
  · have h1 : strVal ('0' :: natStr n) = strVal (natStr n) := by
      simp [strVal, charVal]
    rw [pad2, if_pos h, h1, natStr]
    exact strVal_natStrAux _ _ (Nat.lt_succ_self n)
  · rw [pad2, if_neg h, natStr]
    exact strVal_natStrAux _ _ (Nat.lt_succ_self n)

theorem pad2_injective : Function.Injective pad2 := by
  intro a b h
  have h2 := congrArg strVal h
  rwa [strVal_pad2, strVal_pad2] at h2

theorem splitLastDot_eq : ∀ (name b a : List Char),
    splitLastDot name = some (b, a) → name = b ++ '.' :: a := by
  intro name
  induction name with
  | nil => intro b a h; simp [splitLastDot] at h
  | cons c rest ih =>
      intro b a h
      simp only [splitLastDot] at h
      cases h2 : splitLastDot rest with
      | some pr =>
          obtain ⟨b1, a1⟩ := pr
          rw [h2] at h
          simp only [Option.some.injEq, Prod.mk.injEq] at h
          obtain ⟨hb, ha⟩ := h
          subst hb; subst ha
          simp [ih b1 a1 h2]
      | none =>
          rw [h2] at h
          by_cases hc : c = '.'
          · subst hc
            rw [if_pos rfl] at h
            injection h with h2
            injection h2 with hb ha
            subst hb
            subst ha
            simp
          · simp [hc] at h

theorem nameStem_append_nameSuffix (name : PathC) :
    nameStem name ++ nameSuffix name = name := by
  cases h : splitLastDot name with
  | none => simp [nameStem, nameSuffix, h]
  | some pr =>
      obtain ⟨b, a⟩ := pr
      by_cases hba : b ≠ [] ∧ a ≠ []
      · simp only [nameStem, nameSuffix, h, if_pos hba]
        exact (splitLastDot_eq name b a h).symm
      · simp [nameStem, nameSuffix, h, hba]

theorem withIndexedStem_concat (dir : PathL) (name : PathC) (k : Nat) :
    withIndexedStem (dir ++ [name]) k
      = dir ++ [withStem (nameStem name ++ '_' :: pad2 k) name] := by
  simp [withIndexedStem, List.getLast?_concat, List.dropLast_concat]

theorem withIndexedStem_concat_inj (dir : PathL) (name : PathC) {j k : Nat}
    (h : withIndexedStem (dir ++ [name]) j = withIndexedStem (dir ++ [name]) k) :
    j = k := by
  rw [withIndexedStem_concat, withIndexedStem_concat] at h
  have h1 := List.append_cancel_left h
  have h2 : withStem (nameStem name ++ '_' :: pad2 j) name
      = withStem (nameStem name ++ '_' :: pad2 k) name := by
    injection h1
  simp only [withStem] at h2
  have h3 := List.append_cancel_right h2
  have h4 := List.append_cancel_left h3
  have h5 : pad2 j = pad2 k := by injection h4
  exact pad2_injective h5

theorem jigger_of_free (ex : PathL → Bool) (fuel : Nat) (p : PathL) (c : Nat)
    (h : ex p = false) : jigger ex fuel p c = p := by
  cases fuel <;> simp [jigger, h]

theorem jigger_spec (ex : PathL → Bool) (p : PathL) (k : Nat)
    (hp : ex p = true) (hk : 1 ≤ k)
    (hall : ∀ j, 1 ≤ j → j < k → ex (withIndexedStem p j) = true)
    (hfree : ex (withIndexedStem p k) = false) :
    ∀ fuel counter, 1 ≤ counter → counter ≤ k → k + 1 - counter < fuel →
      jigger ex fuel p counter = withIndexedStem p k := by
  intro fuel
  induction fuel with
  | zero => intro counter h1 h2 h3; omega
  | succ fuel ih =>
      intro counter h1 h2 h3
      simp only [jigger, hp, if_true]
      by_cases hck : counter = k
      · subst hck
        simp only [hfree, Bool.false_eq_true, if_false]
        exact jigger_of_free ex fuel _ _ hfree
      · have hckk : counter < k := by omega
        have hc : ex (withIndexedStem p counter) = true := hall counter h1 hckk
        simp only [hc, if_true]
        exact ih (counter + 1) (by omega) (by omega) (by omega)

theorem cand_bound (fs : List PathL) (dir : PathL) (name : PathC) (k : Nat)
    (hall : ∀ j, 1 ≤ j → j < k → withIndexedStem (dir ++ [name]) j ∈ fs) :
    k ≤ fs.length + 1 := by
  have hnd : ((List.range (k - 1)).map
      (fun i => withIndexedStem (dir ++ [name]) (i + 1))).Nodup := by
    refine List.Nodup.map ?_ (List.nodup_range (k - 1))
    intro a b hab
    have h2 := withIndexedStem_concat_inj dir name hab
    omega
  have hsub : ∀ x ∈ (List.range (k - 1)).map
      (fun i => withIndexedStem (dir ++ [name]) (i + 1)), x ∈ fs := by
    intro x hx
    obtain ⟨i, hi, rfl⟩ := List.mem_map.1 hx
    have hi2 := List.mem_range.1 hi
    exact hall (i + 1) (by omega) (by omega)
  have h1 := List.toFinset_card_of_nodup hnd
  have h2 : ((List.range (k - 1)).map
      (fun i => withIndexedStem (dir ++ [name]) (i + 1))).toFinset ⊆ fs.toFinset := by
    intro x hx
    exact List.mem_toFinset.2 (hsub x (List.mem_toFinset.1 hx))
  have h3 := Finset.card_le_card h2
  have h4 := fs.toFinset_card_le
  have h5 : ((List.range (k - 1)).map
      (fun i => withIndexedStem (dir ++ [name]) (i + 1))).length = k - 1 := by
    simp
  omega

/-- C6: `_move_model` with equal source and destination returns the destination
without moving; with a free destination it moves there; and when the
destination exists it moves to the first free candidate obtained by appending
the zero-padded `_NN` counter (starting at 01) to the stem, preserving the
suffix. -/
theorem moveModel_spec (fs : List PathL) (oldPath dir : PathL) (name : PathC) :
    (oldPath = dir ++ [name] → moveModel fs oldPath (dir ++ [name]) = (dir ++ [name], fs))
    ∧ (oldPath ≠ dir ++ [name] → (dir ++ [name]) ∉ fs →
        moveModel fs oldPath (dir ++ [name])
          = (dir ++ [name], (dir ++ [name]) :: fs.erase oldPath))
    ∧ (∀ k, oldPath ≠ dir ++ [name] → (dir ++ [name]) ∈ fs → 1 ≤ k →
        (∀ j ∈ List.range' 1 (k - 1), withIndexedStem (dir ++ [name]) j ∈ fs) →
        withIndexedStem (dir ++ [name]) k ∉ fs →
        moveModel fs oldPath (dir ++ [name])
          = (withIndexedStem (dir ++ [name]) k,
             withIndexedStem (dir ++ [name]) k :: fs.erase oldPath)) := by
  refine ⟨?_, ?_, ?_⟩
  · intro h
    simp [moveModel, h]
  · intro hne hnotin
    have hfree : decide ((dir ++ [name]) ∈ fs) = false := by simp [hnotin]
    simp only [moveModel, if_neg hne]
    rw [jigger_of_free _ _ _ _ hfree]
  · intro k hne hin hk hall hfree
    have hall1 : ∀ j, 1 ≤ j → j < k → withIndexedStem (dir ++ [name]) j ∈ fs := by
      intro j h1 h2
      exact hall j (List.mem_range'_1.2 ⟨h1, by omega⟩)
    have hall2 : ∀ j, 1 ≤ j → j < k →
        (fun q => decide (q ∈ fs)) (withIndexedStem (dir ++ [name]) j) = true := by
      intro j h1 h2
      simp only [decide_eq_true_eq]
      exact hall1 j h1 h2
    have hb := cand_bound fs dir name k hall1
    have hj := jigger_spec (fun q => decide (q ∈ fs)) (dir ++ [name]) k
      (by simp [hin]) hk hall2 (by simp [hfree]) (fs.length + 2) 1 (by omega) hk (by omega)
    simp only [moveModel, if_neg hne]
    rw [hj]

/-- Witness for `moveModel_spec`: moving `x.safetensors` into a directory
already containing `x.safetensors` produces `x_01.safetensors`; a third such
move (with `x_01` now also present) produces `x_02.safetensors`. -/
theorem moveModel_spec_witness :
    (["tmp".toList, "x.safetensors".toList] ≠
      ["models".toList] ++ ["x.safetensors".toList])
    ∧ (["models".toList] ++ ["x.safetensors".toList])
        ∈ [["models".toList, "x.safetensors".toList]]
    ∧ withIndexedStem (["models".toList] ++ ["x.safetensors".toList]) 1
        ∉ [["models".toList, "x.safetensors".toList]]
    ∧ (moveModel [["models".toList, "x.safetensors".toList]]
        ["tmp".toList, "x.safetensors".toList]
        (["models".toList] ++ ["x.safetensors".toList])).1
      = ["models".toList, "x_01.safetensors".toList]
    ∧ (moveModel [["models".toList, "x.safetensors".toList],
          ["models".toList, "x_01.safetensors".toList]]
        ["tmp".toList, "x.safetensors".toList]
        (["models".toList] ++ ["x.safetensors".toList])).1
      = ["models".toList, "x_02.safetensors".toList] := by
  have h1 := (moveModel_spec [["models".toList, "x.safetensors".toList]]
    ["tmp".toList, "x.safetensors".toList] ["models".toList]
    ("x.safetensors".toList)).2.2 1
    (by decide) (by decide) (by decide) (by decide) (by decide)
  have h2 := (moveModel_spec [["models".toList, "x.safetensors".toList],
      ["models".toList, "x_01.safetensors".toList]]
    ["tmp".toList, "x.safetensors".toList] ["models".toList]
    ("x.safetensors".toList)).2.2 2
    (by decide) (by decide) (by decide) (by decide) (by decide)
  refine ⟨by decide, by decide, by decide, ?_, ?_⟩
  · rw [h1]
    decide
  · rw [h2]
    decide

/-- C9: when the legacy `models.yaml` exists and its version is not "3.0.0",
`_migrate_yaml` fails with UnsupportedMigration, registering nothing and
renaming nothing (and the configured path stays set); with version "3.0.0" it
does not fail, registers entries only when the records store is empty, renames
the file with suffix `.yaml.bak` (so `models.yaml` becomes `models.yaml.bak`)
and unsets the configured path so the migration never re-runs. -/
theorem migrateYaml_spec (fileName : PathC) (version : String)
    (entries : List String) (dbEmpty : Bool) (regOk : String → Bool) :
    (version ≠ "3.0.0" →
      migrateYaml true fileName version entries dbEmpty regOk
        = { failed := true, registered := [], renamedTo := none,
            configPathUnset := false })
    ∧ (version = "3.0.0" →
        (migrateYaml true fileName version entries dbEmpty regOk).failed = false
        ∧ (migrateYaml true fileName version entries dbEmpty regOk).renamedTo
            = some (withSuffix ".yaml.bak".toList fileName)
        ∧ (migrateYaml true fileName version entries dbEmpty regOk).configPathUnset
            = true
        ∧ ((migrateYaml true fileName version entries dbEmpty regOk).registered ≠ []
            → dbEmpty = true)
        ∧ (dbEmpty = false →
            (migrateYaml true fileName version entries dbEmpty regOk).registered = []))
    ∧ withSuffix ".yaml.bak".toList "models.yaml".toList = "models.yaml.bak".toList := by
  refine ⟨?_, ?_, by decide⟩
  · intro hv
    simp [migrateYaml, hv]
  · intro hv
    subst hv
    refine ⟨by simp [migrateYaml], by simp [migrateYaml], by simp [migrateYaml],
      ?_, ?_⟩
    · intro hreg
      by_contra hdb
      simp only [Bool.not_eq_true] at hdb
      simp [migrateYaml, hdb] at hreg
    · intro hdb
      simp [migrateYaml, hdb]

/-- Witness for `migrateYaml_spec`: version 3.0.0 with an empty records store
registers the entries, renames `models.yaml` to `models.yaml.bak` and unsets
the configured path; version 2.0.0 fails without renaming. -/
theorem migrateYaml_spec_witness :
    (migrateYaml true "models.yaml".toList "3.0.0" ["sd-1/main/a", "sd-1/main/b"]
        true (fun _ => true)).renamedTo = some "models.yaml.bak".toList
    ∧ (migrateYaml true "models.yaml".toList "3.0.0" ["sd-1/main/a", "sd-1/main/b"]
        true (fun _ => true)).configPathUnset = true
    ∧ migrateYaml true "models.yaml".toList "2.0.0" ["sd-1/main/a"] true
        (fun _ => true)
      = { failed := true, registered := [], renamedTo := none,
          configPathUnset := false } := by
  have h1 := (migrateYaml_spec "models.yaml".toList "3.0.0"
    ["sd-1/main/a", "sd-1/main/b"] true (fun _ => true)).2.1 rfl
  have h2 := (migrateYaml_spec "models.yaml".toList "2.0.0" ["sd-1/main/a"] true
    (fun _ => true)).1 (by decide)
  refine ⟨?_, h1.2.2.1, h2⟩
  rw [h1.2.1]
  decide

theorem takeWhile_all {α : Type} (p : α → Bool) (a : List α)
    (ha : ∀ c ∈ a, p c = true) :
    a.takeWhile p = a ∧ a.dropWhile p = [] := by
  induction a with
  | nil => simp
  | cons x t ih =>
      have hx : p x = true := ha x (List.mem_cons_self x t)
      have ht := ih (fun c hc => ha c (List.mem_cons_of_mem x hc))
      simp [List.takeWhile_cons, List.dropWhile_cons, hx, ht.1, ht.2]

theorem takeWhile_append_stop {α : Type} (p : α → Bool) (a : List α) (x : α)
    (t : List α) (ha : ∀ c ∈ a, p c = true) (hx : p x = false) :
    (a ++ x :: t).takeWhile p = a ∧ (a ++ x :: t).dropWhile p = x :: t := by
  induction a with
  | nil => simp [List.takeWhile_cons, List.dropWhile_cons, hx]
  | cons y s ih =>
      have hy : p y = true := ha y (List.mem_cons_self y s)
      have hs := ih (fun c hc => ha c (List.mem_cons_of_mem y hc))
      simp [List.takeWhile_cons, List.dropWhile_cons, hy, hs.1, hs.2]


theorem takeRid_some {l rid rest : List Char}
    (h : takeRid? l = some (rid, rest)) :
    ridOkP rid ∧ l = rid ++ rest := by
  unfold takeRid? at h
  split at h
  next r2 heq =>
    split at h
    · exact absurd h (by simp)
    next hab =>
      simp only [Option.some.injEq, Prod.mk.injEq] at h
      obtain ⟨hrid, hrest⟩ := h
      subst hrid
      subst hrest
      push_neg at hab
      refine ⟨⟨l.takeWhile isRidChar, r2.takeWhile isRidChar, rfl, hab.1, hab.2,
        fun c hc => List.mem_takeWhile_imp hc,
        fun c hc => List.mem_takeWhile_imp hc⟩, ?_⟩
      have h1 := List.takeWhile_append_dropWhile (p := isRidChar) (l := l)
      have h2 := List.takeWhile_append_dropWhile (p := isRidChar) (l := r2)
      conv_lhs => rw [← h1, heq, ← h2]
      simp
  next => exact absurd h (by simp)

theorem takeRid_of (a b rest : List Char) (ha : a ≠ []) (hb : b ≠ [])
    (hca : ridChars a) (hcb : ridChars b)
    (hrest : rest = [] ∨ ∃ r, rest = ':' :: r) :
    takeRid? (a ++ '/' :: (b ++ rest)) = some (a ++ '/' :: b, rest) := by
  have h1 := takeWhile_append_stop isRidChar a '/' (b ++ rest) hca (by decide)
  have h2 : (b ++ rest).takeWhile isRidChar = b
      ∧ (b ++ rest).dropWhile isRidChar = rest := by
    cases hrest with
    | inl h =>
        subst h
        have h3 := takeWhile_all isRidChar b hcb
        simpa using h3
    | inr h =>
        obtain ⟨r, rfl⟩ := h
        exact takeWhile_append_stop isRidChar b ':' r hcb (by decide)
  unfold takeRid?
  rw [h1.2]
  simp [h1.1, h2.1, h2.2, ha, hb]

theorem parseSub_some (rid vs r2 : List Char) (rid2 : List Char)
    (v sub : Option (List Char))
    (h : parseSub rid vs r2 = some (rid2, v, sub)) :
    rid2 = rid ∧ v = vOf vs ∧
      ((r2 = [] ∧ sub = none)
        ∨ (∃ ss, r2 = ':' :: ss ∧ ss ≠ [] ∧ ':' ∉ ss
            ∧ sub = some (stripSlash ss))) := by
  unfold parseSub at h
  split at h
  · simp only [Option.some.injEq, Prod.mk.injEq] at h
    exact ⟨h.1.symm, h.2.1.symm, Or.inl ⟨rfl, h.2.2.symm⟩⟩
  · next ss =>
    split at h
    next hss =>
      simp only [Option.some.injEq, Prod.mk.injEq] at h
      exact ⟨h.1.symm, h.2.1.symm, Or.inr ⟨ss, rfl, hss.1, hss.2, h.2.2.symm⟩⟩
    next => exact absurd h (by simp)
  · exact absurd h (by simp)

theorem parseRepoTail_some_decl (variants : List (List Char))
    (rid rest : List Char) (rid2 : List Char) (v sub : Option (List Char))
    (h : parseRepoTail variants rid rest = some (rid2, v, sub)) :
    rid2 = rid ∧ tailDecl variants rest v sub := by
  unfold parseRepoTail at h
  split at h
  · -- rest = []
    simp only [Option.some.injEq, Prod.mk.injEq] at h
    exact ⟨h.1.symm, Or.inl ⟨rfl, h.2.1.symm, h.2.2.symm⟩⟩
  · -- rest = ':' :: r
    next r =>
    split at h
    next hguard =>
      have hr := List.takeWhile_append_dropWhile
        (p := fun c => !(c = ':')) (l := r)
      obtain ⟨h1, h2, h3⟩ := parseSub_some _ _ _ _ _ _ h
      refine ⟨h1, ?_⟩
      rcases h3 with ⟨hdw, hsub⟩ | ⟨ss, hdw, hss, hssc, hsub⟩
      · refine Or.inr (Or.inl ⟨r.takeWhile (fun c => !(c = ':')), ?_,
          hguard, h2, hsub⟩)
        conv_lhs => rw [← hr, hdw]
        simp
      · refine Or.inr (Or.inr ⟨r.takeWhile (fun c => !(c = ':')), ss, ?_,
          hguard, hss, hssc, h2, hsub⟩)
        conv_lhs => rw [← hr, hdw]
    next => exact absurd h (by simp)
  · exact absurd h (by simp)

theorem parseRepoTail_decl_some (variants : List (List Char))
    (hv : ∀ w ∈ variants, ':' ∉ w) (rid rest : List Char)
    (v sub : Option (List Char)) (h : tailDecl variants rest v sub) :
    parseRepoTail variants rid rest = some (rid, v, sub) := by
  have hvsnc : ∀ vs : List Char, (vs = [] ∨ vs ∈ variants) →
      ∀ c ∈ vs, (!(c = ':')) = true := by
    intro vs hvs c hc
    cases hvs with
    | inl hnil => subst hnil; simp at hc
    | inr hmem =>
        have hnotin := hv vs hmem
        simp only [Bool.not_eq_true', decide_eq_false_iff_not]
        intro hcc
        subst hcc
        exact absurd hc hnotin
  rcases h with ⟨hrest, hv2, hs⟩ | ⟨vs, hrest, hvs, hv2, hs⟩ |
    ⟨vs, ss, hrest, hvs, hss, hssc, hv2, hs⟩
  · subst hrest; subst hv2; subst hs
    rfl
  · subst hrest; subst hv2; subst hs
    have h2 := takeWhile_all (fun c => !(c = ':')) vs (hvsnc vs hvs)
    show (if vs.takeWhile (fun c => !(c = ':')) = []
          ∨ vs.takeWhile (fun c => !(c = ':')) ∈ variants then
        parseSub rid (vs.takeWhile (fun c => !(c = ':')))
          (vs.dropWhile (fun c => !(c = ':')))
      else none) = some (rid, vOf vs, none)
    rw [h2.1, h2.2, if_pos hvs]
    rfl
  · subst hrest; subst hv2; subst hs
    have h2 := takeWhile_append_stop (fun c => !(c = ':')) vs ':' ss
      (hvsnc vs hvs) (by decide)
    show (if (vs ++ ':' :: ss).takeWhile (fun c => !(c = ':')) = []
          ∨ (vs ++ ':' :: ss).takeWhile (fun c => !(c = ':')) ∈ variants then
        parseSub rid ((vs ++ ':' :: ss).takeWhile (fun c => !(c = ':')))
          ((vs ++ ':' :: ss).dropWhile (fun c => !(c = ':')))
      else none) = some (rid, vOf vs, some (stripSlash ss))
    rw [h2.1, h2.2, if_pos hvs]
    show (if ss ≠ [] ∧ ':' ∉ ss then some (rid, vOf vs, some (stripSlash ss))
      else none) = some (rid, vOf vs, some (stripSlash ss))
    rw [if_pos (And.intro hss hssc)]

/-- The implementation of the repo-id regex agrees with its declarative
reading `repoDecl`. -/
theorem parseRepo_iff (variants : List (List Char))
    (hv : ∀ w ∈ variants, ':' ∉ w) (l rid : List Char)
    (v sub : Option (List Char)) :
    parseRepo variants l = some (rid, v, sub) ↔ repoDecl variants l rid v sub := by
  constructor
  · intro h
    unfold parseRepo at h
    split at h
    · exact absurd h (by simp)
    next rid0 rest htr =>
      obtain ⟨hok, hl⟩ := takeRid_some htr
      obtain ⟨hr2, htail⟩ := parseRepoTail_some_decl variants rid0 rest rid v sub h
      subst hr2
      refine ⟨hok, ?_⟩
      rcases htail with ⟨h1, h2, h3⟩ | ⟨vs, h1, h2, h3, h4⟩ |
        ⟨vs, ss, h1, h2, h3, h4, h5, h6⟩
      · subst h1
        exact Or.inl ⟨by simpa using hl, h2, h3⟩
      · subst h1
        exact Or.inr (Or.inl ⟨vs, by simpa using hl, h2, h3, h4⟩)
      · subst h1
        exact Or.inr (Or.inr ⟨vs, ss, by simpa using hl, h2, h3, h4, h5, h6⟩)
  · intro h
    obtain ⟨⟨a, b, hrid, ha, hb, hca, hcb⟩, hcase⟩ := h
    rcases hcase with ⟨hl, hv2, hs⟩ | ⟨vs, hl, hvs, hv2, hs⟩ |
      ⟨vs, ss, hl, hvs, hss, hssc, hv2, hs⟩
    · have hlform : l = a ++ '/' :: (b ++ []) := by rw [hl, hrid]; simp
      have ht := takeRid_of a b [] ha hb hca hcb (Or.inl rfl)
      unfold parseRepo
      rw [hlform, ht, ← hrid]
      exact parseRepoTail_decl_some variants hv rid [] v sub
        (Or.inl ⟨rfl, hv2, hs⟩)
    · have hlform : l = a ++ '/' :: (b ++ ':' :: vs) := by rw [hl, hrid]; simp
      have ht := takeRid_of a b (':' :: vs) ha hb hca hcb (Or.inr ⟨vs, rfl⟩)
      unfold parseRepo
      rw [hlform, ht, ← hrid]
      exact parseRepoTail_decl_some variants hv rid (':' :: vs) v sub
        (Or.inr (Or.inl ⟨vs, rfl, hvs, hv2, hs⟩))
    · have hlform : l = a ++ '/' :: (b ++ ':' :: (vs ++ ':' :: ss)) := by
        rw [hl, hrid]; simp
      have ht := takeRid_of a b (':' :: (vs ++ ':' :: ss)) ha hb hca hcb
        (Or.inr ⟨vs ++ ':' :: ss, rfl⟩)
      unfold parseRepo
      rw [hlform, ht, ← hrid]
      exact parseRepoTail_decl_some variants hv rid (':' :: (vs ++ ':' :: ss))
        v sub (Or.inr (Or.inr ⟨vs, ss, rfl, hvs, hss, hssc, hv2, hs⟩))

theorem urlRe_iff (l : List Char) : urlRe l = true ↔ urlDecl l := by
  constructor
  · intro h
    unfold urlRe at h
    split at h
    next c tail => exact Or.inr ⟨c, tail, rfl, by simpa using h⟩
    next c tail => exact Or.inl ⟨c, tail, rfl, by simpa using h⟩
    next => exact absurd h (by simp)
  · intro h
    rcases h with ⟨c, rest, rfl, hc⟩ | ⟨c, rest, rfl, hc⟩
    · show (!(c = '/')) = true
      simpa using hc
    · show (!(c = '/')) = true
      simpa using hc

theorem find?_first_none {β : Type} (p : β → Bool) (l : List β)
    (h : ∀ q ∈ l, p q = false) : l.find? p = none :=
  List.find?_eq_none.2 (fun x hx => by simp [h x hx])

theorem find?_append_first {β : Type} (p : β → Bool) (l1 : List β) (q : β)
    (l2 : List β) (h1 : ∀ x ∈ l1, p x = false) (h2 : p q = true) :
    (l1 ++ q :: l2).find? p = some q := by
  induction l1 with
  | nil => simp [List.find?_cons_of_pos, h2]
  | cons x t ih =>
      have hx := h1 x (List.mem_cons_self x t)
      rw [List.cons_append,
        List.find?_cons_of_neg (p := p) (a := x) (t ++ q :: l2) (by simp [hx])]
      exact ih (fun y hy => h1 y (List.mem_cons_of_mem x hy))

/-- C4 (counterexample): the claim reads rule (3) as "a string matching
`^https?://` yields a Url source", but the code requires at least one
non-slash character after the scheme (`^https?://[^/]+`): the string
`"https://"` (which does match `^https?://` and names no filesystem entry)
is rejected with BadSource, while `"https://x"` is classified as a URL. -/
theorem heuristicImport_url_counterexample :
    heuristicImport (fun _ => false) variantTags [] none false "https://".toList
      = .error .badSource
    ∧ heuristicImport (fun _ => false) variantTags [] none false "https://x".toList
      = .ok (.urlSource "https://x".toList none) := by
  exact ⟨rfl, rfl⟩

/-- C4 (amended): `heuristic_import` classifies a source string by these rules
in order: (1) an existing filesystem entry is a Local source with the given
inplace flag; (2) otherwise a string matching the repo-id pattern
`^([^/:]+/[^/:]+)(?::(<variant>)?(?::/?([^:]+))?)?$` (declaratively,
`repoDecl`) is a Repo source with repo id, optional variant, optional
subfolder and the access token; (3) otherwise a string matching
`^https?://[^/]+` — at least one non-slash character after the scheme, not
bare `^https?://` — is a Url source whose token, absent an explicit one, comes
from the first configured `(url_regex, token)` pair whose regex matches;
(4) otherwise it fails with BadSource. -/
theorem heuristicImport_classification (fsOk : List Char → Bool)
    (variants : List (List Char)) (pairs : List ((List Char → Bool) × String))
    (accessToken : Option String) (inplace : Bool) (source : List Char)
    (hv : ∀ w ∈ variants, ':' ∉ w) :
    (fsOk source = true →
      heuristicImport fsOk variants pairs accessToken inplace source
        = .ok (.localSource source inplace))
    ∧ (fsOk source = false → ∀ rid v sub, repoDecl variants source rid v sub →
        heuristicImport fsOk variants pairs accessToken inplace source
          = .ok (.hfSource rid v sub accessToken))
    ∧ (fsOk source = false →
        (¬∃ rid v sub, repoDecl variants source rid v sub) → urlDecl source →
        heuristicImport fsOk variants pairs accessToken inplace source
          = .ok (.urlSource source (resolveUrlToken accessToken pairs source)))
    ∧ (fsOk source = false →
        (¬∃ rid v sub, repoDecl variants source rid v sub) → ¬urlDecl source →
        heuristicImport fsOk variants pairs accessToken inplace source
          = .error .badSource)
    ∧ (∀ t, accessToken = some t →
        resolveUrlToken accessToken pairs source = some t)
    ∧ (accessToken = none → (∀ q ∈ pairs, q.1 source = false) →
        resolveUrlToken accessToken pairs source = none)
    ∧ (∀ l1 pr l2, accessToken = none → pairs = l1 ++ pr :: l2 →
        (∀ q ∈ l1, q.1 source = false) → pr.1 source = true →
        resolveUrlToken accessToken pairs source = some pr.2) := by
  have hnone : (¬∃ rid v sub, repoDecl variants source rid v sub) →
      parseRepo variants source = none := by
    intro hnorepo
    cases hq : parseRepo variants source with
    | none => rfl
    | some pr =>
        obtain ⟨rid, vv⟩ := pr
        obtain ⟨v, sub⟩ := vv
        exact absurd ⟨rid, v, sub,
          (parseRepo_iff variants hv source rid v sub).1 hq⟩ hnorepo
  refine ⟨?_, ?_, ?_, ?_, ?_, ?_, ?_⟩
  · intro hfs
    simp [heuristicImport, hfs]
  · intro hfs rid v sub hdecl
    have hp := (parseRepo_iff variants hv source rid v sub).2 hdecl
    simp [heuristicImport, hfs, hp]
  · intro hfs hnorepo hurl
    have hu : urlRe source = true := (urlRe_iff source).2 hurl
    simp [heuristicImport, hfs, hnone hnorepo, hu]
  · intro hfs hnorepo hurl
    have hu : urlRe source = false := by
      cases hq : urlRe source with
      | true => exact absurd ((urlRe_iff source).1 hq) hurl
      | false => rfl
    simp [heuristicImport, hfs, hnone hnorepo, hu]
  · intro t ht
    simp [resolveUrlToken, ht]
  · intro ht hnonep
    simp [resolveUrlToken, ht, find?_first_none _ pairs hnonep]
  · intro l1 pr l2 ht hp h1 h2
    subst hp
    simp [resolveUrlToken, ht, find?_append_first _ l1 pr l2 h1 h2]

/-- Witness for `heuristicImport_classification` on concrete strings: an
existing path is Local; `a/b:fp16:/sub/dir` is a Repo source with variant fp16
and subfolder `sub/dir`; a URL with a matching configured token pair receives
that pair's token. -/
theorem heuristicImport_classification_witness :
    (∀ w ∈ variantTags, ':' ∉ w)
    ∧ heuristicImport (fun _ => true) variantTags [] none true "/data/m.ckpt".toList
      = .ok (.localSource "/data/m.ckpt".toList true)
    ∧ heuristicImport (fun _ => false) variantTags [] none false
        "a/b:fp16:/sub/dir".toList
      = .ok (.hfSource "a/b".toList (some "fp16".toList)
          (some "sub/dir".toList) none) := by
  refine ⟨by decide, ?_, ?_⟩
  · exact (heuristicImport_classification (fun _ => true) variantTags [] none true
      "/data/m.ckpt".toList (by decide)).1 rfl
  · have hdecl : repoDecl variantTags "a/b:fp16:/sub/dir".toList "a/b".toList
        (some "fp16".toList) (some "sub/dir".toList) := by
      refine ⟨⟨"a".toList, "b".toList, by decide, by decide, by decide,
        by decide, by decide⟩, Or.inr (Or.inr ⟨"fp16".toList, "/sub/dir".toList,
        by decide, by decide, by decide, by decide, by decide, by decide⟩)⟩
    exact (heuristicImport_classification (fun _ => false) variantTags [] none false
      "a/b:fp16:/sub/dir".toList (by decide)).2.1 rfl "a/b".toList
      (some "fp16".toList) (some "sub/dir".toList) hdecl

/-- C1 (code bug): the claim — and the spec, and the code's own
FileExistsError-to-Duplicate conversion — say that an already-existing
destination makes `install_path` fail with Duplicate without replacing the
destination.  For a directory model that holds (third conjunct), but for a
single-file model `shutil.copyfile` never raises FileExistsError: the second
install of `tmp/m.safetensors` (probe: base sdxl, type main) finds the
destination `<root>/sdxl/main/m.safetensors` occupied (content 7), silently
overwrites it with the source content 9, and registers it instead of raising
Duplicate. -/
theorem installPath_overwrites_existing_file :
    fsGet [(["tmp".toList, "m.safetensors".toList], FSNode.file 9),
           (["root".toList, "models".toList, "sdxl".toList, "main".toList,
             "m.safetensors".toList], FSNode.file 7)]
        ["root".toList, "models".toList, "sdxl".toList, "main".toList,
         "m.safetensors".toList] = some (FSNode.file 7)
    ∧ (match installPath
          [(["tmp".toList, "m.safetensors".toList], FSNode.file 9),
           (["root".toList, "models".toList, "sdxl".toList, "main".toList,
             "m.safetensors".toList], FSNode.file 7)]
          ["root".toList, "models".toList] "sdxl".toList "main".toList none
          ["tmp".toList] "m.safetensors".toList with
        | .ok (stored, fs1) =>
            stored = ["sdxl".toList, "main".toList, "m.safetensors".toList]
            ∧ fsGet fs1 ["root".toList, "models".toList, "sdxl".toList,
                "main".toList, "m.safetensors".toList] = some (FSNode.file 9)
        | .error _ => False)
    ∧ installPath
        [(["tmp".toList, "mdl".toList], FSNode.dir),
         (["root".toList, "models".toList, "sdxl".toList, "main".toList,
           "mdl".toList], FSNode.dir)]
        ["root".toList, "models".toList] "sdxl".toList "main".toList none
        ["tmp".toList] "mdl".toList = .error .duplicate := by
  exact ⟨by decide, ⟨rfl, by decide⟩, rfl⟩
